import Mathlib

/-!
Verification of the orchestration core of the multi-agent financial platform.

The development shallowly embeds the orchestration code:
  * `ai_financial/orchestrator/workflow_engine.py`
      (`WorkflowDefinition.get_ready_steps`, `WorkflowEngine.execute_workflow`,
       `WorkflowEngine._execute_approval_step`),
  * `ai_financial/orchestrator/orchestrator.py`
      (`AgentOrchestrator._route_to_agent`, `_route_to_workflow`,
       `_execute_advisory_workflow`),
  * `ai_financial/models/agent_models.py`
      (`ApprovalRequest.is_approved`, `WorkflowState.approve_request`),
  * `ai_financial/orchestrator/context_manager.py`
      (`ContextManager.share_context_data`).

Workflow steps are identified by their unique `step_id` strings; dictionaries
are embedded as association lists with Python dict key-overwrite semantics;
`datetime.utcnow()` timestamps are abstracted to `Nat` instants supplied by the
caller; async execution of a layer of ready steps is embedded by evaluating a
result function on each dispatched step id, and the engine then folds the
results in dispatch order, exactly as the source folds `step_results.items()`.
-/

namespace AiFinancial

/-! ## Workflow graph (`workflow_engine.py`, class `WorkflowDefinition`)

`steps`/`step_order` hold one entry per added step; dependencies default to
`[]` for a step with no entry (`self.dependencies.get(step_id, [])`).  A step
is represented by its unique `step_id`. -/

structure WorkflowDefinition where
  stepOrder : List String
  dependencies : List (String × List String)
  deriving Repr, DecidableEq

/-- The dependency list of a step: `self.dependencies.get(step_id, [])`. -/
def depsOf (d : WorkflowDefinition) (stepId : String) : List String :=
  (d.dependencies.lookup stepId).getD []

/-- `WorkflowDefinition.get_ready_steps`: every step of `step_order` that is
not in `completed_steps` and whose dependencies are all in `completed_steps`,
in `step_order` order. -/
def get_ready_steps (d : WorkflowDefinition) (completed : List String) : List String :=
  d.stepOrder.filter (fun stepId =>
    !(completed.contains stepId) && (depsOf d stepId).all (fun dep => completed.contains dep))

/-- Marking a whole ready layer complete, as in spec section 8: apply
`ready_steps`, then add all returned steps to the completed set. -/
def mark_layer_complete (d : WorkflowDefinition) (completed : List String) : List String :=
  completed ++ get_ready_steps d completed

/-- Repeatedly taking the ready set and marking all of its steps complete. -/
def run_rounds (d : WorkflowDefinition) (completed : List String) : Nat → List String
  | 0 => completed
  | Nat.succ n =>
      if get_ready_steps d completed = [] then completed
      else run_rounds d (mark_layer_complete d completed) n

/-- A validated definition: no duplicate step registration, and every
prerequisite id refers to a registered step (spec section 1 treats workflow
definitions as already-validated DAG value objects). -/
def WellFormed (d : WorkflowDefinition) : Prop :=
  d.stepOrder.Nodup ∧ ∀ b ∈ d.stepOrder, ∀ a ∈ depsOf d b, a ∈ d.stepOrder

/-- `rank` witnesses acyclicity: prerequisites have strictly smaller rank. -/
def AcyclicBy (d : WorkflowDefinition) (rank : String → Nat) : Prop :=
  ∀ b ∈ d.stepOrder, ∀ a ∈ depsOf d b, rank a < rank b

/-- The dependency relation admits no cycle. -/
def Acyclic (d : WorkflowDefinition) : Prop :=
  ∃ rank : String → Nat, AcyclicBy d rank

/-! ## Workflow engine run loop (`workflow_engine.py`, `WorkflowEngine.execute_workflow`)

`_execute_steps` dispatches every ready step and collects one result dict per
step id, in layer order; a raised exception inside `_execute_agent_step` or
`_execute_approval_step` is caught and converted to a failure result, so a
step outcome is a `success` flag plus an error message.  `execute_workflow`
then folds `step_results.items()` in that same order: a success is recorded
with `complete_step`, the first failure aborts the run.  The executor is
embedded as a function from the step id to its result. -/

structure StepResult where
  success : Bool
  error : String
  deriving Repr, DecidableEq

inductive ExecResult where
  | success (completedSteps : List String)
  | failure (failedStep : String) (error : String) (completedSteps : List String)
  deriving Repr, DecidableEq

/-- `WorkflowState.complete_step` on the `steps_completed` field: append the
step id unless already present. -/
def complete_step (completed : List String) (stepId : String) : List String :=
  if completed.contains stepId then completed else completed ++ [stepId]

/-- The result-processing loop of `execute_workflow`: successes are added to
`steps_completed`; the first failure returns the failed step id, the error
string built by `set_error`, and the completed steps recorded so far. -/
def process_step_results :
    List String → List (String × StepResult) → Except (String × String × List String) (List String)
  | completed, [] => .ok completed
  | completed, (stepId, r) :: rest =>
      if r.success then process_step_results (complete_step completed stepId) rest
      else .error (stepId, "Step " ++ stepId ++ " failed: " ++ r.error, completed)

/-- The `while True` loop of `execute_workflow`: compute the ready layer; if
empty, break and report success; otherwise dispatch the layer and process the
results.  The second component accumulates the dispatched layers.  Fuel bounds
the recursion; each non-final round strictly grows `completed`, so
`stepOrder.length + 1` rounds always reach the exit the source loop takes. -/
def execute_loop (d : WorkflowDefinition) (ex : String → StepResult) :
    List String → List (List String) → Nat → ExecResult × List (List String)
  | completed, layers, 0 => (.success completed, layers)
  | completed, layers, Nat.succ n =>
      if get_ready_steps d completed = [] then (.success completed, layers)
      else
        match process_step_results completed
            ((get_ready_steps d completed).map (fun stepId => (stepId, ex stepId))) with
        | .ok c2 => execute_loop d ex c2 (layers ++ [get_ready_steps d completed]) n
        | .error e => (.failure e.1 e.2.1 e.2.2, layers ++ [get_ready_steps d completed])

/-- `WorkflowEngine.execute_workflow` for a known workflow type, starting from
an empty `steps_completed` list, returning the run result and the dispatched
layers. -/
def execute_workflow (d : WorkflowDefinition) (ex : String → StepResult) :
    ExecResult × List (List String) :=
  execute_loop d ex [] [] (d.stepOrder.length + 1)

/-! ## Agent models (`agent_models.py`) -/

inductive AgentStatus where
  | idle
  | processing
  | waiting
  | error
  | completed
  deriving Repr, DecidableEq

/-- One entry of `ApprovalRequest.approvals`: the dict appended by
`WorkflowState.approve_request`. -/
structure ApprovalEntry where
  approver_id : String
  approved : Bool
  comments : Option String
  timestamp : Nat
  deriving Repr, DecidableEq

/-- `ApprovalRequest` restricted to the fields its behavior reads or writes. -/
structure ApprovalRequest where
  id : String
  required_approvers : List String
  approvals : List ApprovalEntry
  status : String
  expires_at : Option Nat
  deriving Repr, DecidableEq

/-- `ApprovalRequest.is_approved`: vacuously true without required approvers;
otherwise the required approvers must be a subset of the approvers that
submitted an entry with `approved` set.  Entries with `approved = false` are
ignored by this check. -/
def ApprovalRequest.is_approved (r : ApprovalRequest) : Bool :=
  if r.required_approvers.isEmpty then true
  else r.required_approvers.all (fun req =>
    r.approvals.any (fun a => a.approved && a.approver_id == req))

/-- `WorkflowState` restricted to the fields used by the embedded methods. -/
structure WorkflowState where
  workflow_id : String
  workflow_type : String
  steps_completed : List String
  pending_approvals : List ApprovalRequest
  status : AgentStatus
  error : Option String
  updated_at : Nat
  deriving Repr, DecidableEq

/-- The scan of `pending_approvals` inside `WorkflowState.approve_request`:
the first request with a matching id receives the new approval entry and the
status update; the flag records whether a match was found. -/
def approve_request_list (request_id approver_id : String) (approved : Bool)
    (comments : Option String) (now : Nat) :
    List ApprovalRequest → Bool × List ApprovalRequest
  | [] => (false, [])
  | r :: rest =>
      if r.id == request_id then
        let r1 : ApprovalRequest :=
          { r with approvals := r.approvals ++ [⟨approver_id, approved, comments, now⟩] }
        let r2 : ApprovalRequest :=
          if approved && r1.is_approved then { r1 with status := "approved" }
          else if !approved then { r1 with status := "rejected" }
          else r1
        (true, r2 :: rest)
      else
        let res := approve_request_list request_id approver_id approved comments now rest
        (res.1, r :: res.2)

/-- `WorkflowState.approve_request`: record a decision on the matching pending
request and touch `updated_at`; return `false` leaving the state unchanged
when no request matches. -/
def WorkflowState.approve_request (w : WorkflowState) (request_id approver_id : String)
    (approved : Bool) (comments : Option String) (now : Nat) : Bool × WorkflowState :=
  let res := approve_request_list request_id approver_id approved comments now w.pending_approvals
  if res.1 then (true, { w with pending_approvals := res.2, updated_at := now })
  else (false, w)

/-! ## Approval gate (`workflow_engine.py`, `WorkflowEngine._execute_approval_step`)

The source polls the approval request once per second until the deadline
computed at step entry: a poll first checks `is_approved`, then
`status == "rejected"`; when the clock passes the deadline the step fails with
an approval timeout.  The poll loop is embedded on the list of request states
observed at the successive in-deadline polls; an exhausted list means the next
clock check found `now >= timeout`. -/

inductive ApprovalStepOutcome where
  | approved
  | rejected
  | timedOut
  deriving Repr, DecidableEq

def execute_approval_step_poll : List ApprovalRequest → ApprovalStepOutcome
  | [] => .timedOut
  | r :: rest =>
      if r.is_approved then .approved
      else if r.status == "rejected" then .rejected
      else execute_approval_step_poll rest

/-- The step result dict returned by `_execute_approval_step` for each
outcome. -/
def approvalStepResult : ApprovalStepOutcome → StepResult
  | .approved => ⟨true, ""⟩
  | .rejected => ⟨false, "Approval rejected"⟩
  | .timedOut => ⟨false, "Approval timeout"⟩

/-! ## Orchestrator (`orchestrator.py`, class `AgentOrchestrator`) -/

inductive RouteOutcome where
  | notFound (msg : String)
  | capacityExceeded (msg : String)
  | agentResult (payload : String)
  | agentFailed (msg : String)
  deriving Repr, DecidableEq

/-- `AgentOrchestrator._route_to_agent`.  The executor is embedded as a
function returning either a normalized result payload or a raised exception
message.  The returned triple is the outcome, the value of
`_active_agent_count` while the executor runs (after the increment at the top
of the `try` block), and its value after the call (after the decrement in the
`finally` block); on the two reject paths the counter is never touched. -/
def route_to_agent (agents : List String) (invoke : String → Except String String)
    (maxConcurrentAgents activeAgentCount : Nat) (agentId : String) :
    RouteOutcome × Nat × Nat :=
  if !(agents.contains agentId) then
    (.notFound ("Agent " ++ agentId ++ " not found"), activeAgentCount, activeAgentCount)
  else if maxConcurrentAgents ≤ activeAgentCount then
    (.capacityExceeded "Maximum concurrent agents reached", activeAgentCount, activeAgentCount)
  else
    match invoke agentId with
    | .ok r => (.agentResult r, activeAgentCount + 1, activeAgentCount + 1 - 1)
    | .error e =>
        (.agentFailed ("Agent execution failed: " ++ e), activeAgentCount + 1,
          activeAgentCount + 1 - 1)

/-- The orchestrator fields read by the workflow execution paths. -/
structure OrchestratorState where
  agents : List String
  activeAgentCount : Nat
  maxConcurrentAgents : Nat
  deriving Repr, DecidableEq

/-- The fixed agent sequence of `_execute_advisory_workflow`, paired with the
step name passed to `complete_step` after each invocation. -/
def advisoryAgentSequence : List (String × String) :=
  [("data_sync_agent", "data_sync"), ("ai_cfo_agent", "analysis"),
   ("forecasting_agent", "forecasting"), ("alert_agent", "alerts"),
   ("reporting_agent", "reporting")]

/-- The worker invocations performed by `_execute_advisory_workflow`: each
agent of the fixed sequence that is registered is invoked directly via
`self.agents[agent_id].invoke(...)`; the method never reads
`_active_agent_count` or `_max_concurrent_agents`. -/
def execute_advisory_workflow_invocations (st : OrchestratorState) : List String :=
  (advisoryAgentSequence.filter (fun p => st.agents.contains p.1)).map Prod.fst

/-- The value of `_active_agent_count` after `_execute_advisory_workflow`
returns: the method performs no increment or decrement. -/
def execute_advisory_workflow_counter_after (st : OrchestratorState) : Nat :=
  st.activeAgentCount

/-- Python dict assignment on an association list: overwrite the value of an
existing key, otherwise append the binding. -/
def dict_insert {α : Type} (tbl : List (String × α)) (k : String) (v : α) :
    List (String × α) :=
  if tbl.any (fun p => p.1 == k) then
    tbl.map (fun p => if p.1 == k then (k, v) else p)
  else tbl ++ [(k, v)]

/-- Python dict key membership on an association list. -/
def dict_contains {α : Type} (tbl : List (String × α)) (k : String) : Bool :=
  tbl.any (fun p => p.1 == k)

/-- `AgentOrchestrator._route_to_workflow`, tracked on the `active_workflows`
table, with table entries reduced to the status of the stored
`WorkflowState`.  The state is stored at dispatch time with status
`processing`; the inner workflow execution is abstracted by its success flag
(`_execute_advisory_workflow` and `_execute_transactional_workflow` catch
their own exceptions and always return a result dict); the stored state then
receives `set_status(COMPLETED)` or `set_error(...)`.  No path removes the
entry. -/
def route_to_workflow (activeWorkflows : List (String × AgentStatus))
    (workflowId : String) (runSuccess : Bool) : List (String × AgentStatus) :=
  let tbl1 := dict_insert activeWorkflows workflowId AgentStatus.processing
  dict_insert tbl1 workflowId
    (if runSuccess then AgentStatus.completed else AgentStatus.error)

/-- `WorkflowEngine.execute_workflow`, tracked on the `active_executions`
table (a set of workflow ids).  An unknown workflow type returns before the
state is stored; otherwise the id is stored, the run executes inside
`try/except` (every exception is converted to a failure result), and the
`finally` block deletes the id from the table on every exit path. -/
def engine_execute_workflow_tracked (defs : List (String × WorkflowDefinition))
    (activeExecutions : List String) (workflowType workflowId : String)
    (ex : String → StepResult) :
    Option (ExecResult × List (List String)) × List String :=
  match defs.lookup workflowType with
  | none => (none, activeExecutions)
  | some d =>
      let tbl1 := workflowId :: activeExecutions.filter (fun x => !(x == workflowId))
      let res := execute_workflow d ex
      (some res, tbl1.filter (fun x => !(x == workflowId)))

/-! ## Context manager (`context_manager.py`, `ContextManager.share_context_data`) -/

/-- The lock acquisition sequence of `share_context_data`: the source session
lock is entered first (`async with source_lock`), then the target session
lock (`async with target_lock`), in argument order. -/
def share_context_lock_order (sourceSessionId targetSessionId : String) : List String :=
  [sourceSessionId, targetSessionId]

/-- `ContextManager.share_context_data` on `active_contexts`, with each
context reduced to its `state` map: missing source or target returns `false`
unchanged; otherwise the selected keys (or the whole source state) are copied
into the target state under the two locks. -/
def share_context_data (activeContexts : List (String × List (String × String)))
    (sourceSessionId targetSessionId : String) (keys : Option (List String)) :
    Bool × List (String × List (String × String)) :=
  match activeContexts.lookup sourceSessionId, activeContexts.lookup targetSessionId with
  | some sourceState, some targetState =>
      let newTarget :=
        match keys with
        | some ks =>
            ks.foldl (fun acc k =>
              match sourceState.lookup k with
              | some v => dict_insert acc k v
              | none => acc) targetState
        | none => sourceState.foldl (fun acc kv => dict_insert acc kv.1 kv.2) targetState
      (true, activeContexts.map (fun p =>
        if p.1 == targetSessionId then (p.1, newTarget) else p))
  | _, _ => (false, activeContexts)

/-! ## Concrete inputs used by evaluations and witnesses -/

/-- A definition whose only step names a prerequisite id that was never
registered: `get_ready_steps` is empty from the start while the step is
uncompleted. -/
def stuckDef : WorkflowDefinition :=
  ⟨["a"], [("a", ["ghost"])]⟩

/-- The five-step advisory-shaped graph of spec section 8: a chain into a
parallel pair joined by a final report step. -/
def dC2 : WorkflowDefinition :=
  ⟨["data_sync", "analysis", "forecast", "risk", "report"],
   [("analysis", ["data_sync"]), ("forecast", ["analysis"]), ("risk", ["analysis"]),
    ("report", ["forecast", "risk"])]⟩

def rankC2 : String → Nat := fun s =>
  if s == "data_sync" then 0
  else if s == "analysis" then 1
  else if s == "report" then 3
  else 2

/-- Three steps, `b` depending on `a`, `c` independent. -/
def dC3 : WorkflowDefinition :=
  ⟨["a", "b", "c"], [("b", ["a"])]⟩

def exC3 : String → StepResult := fun stepId =>
  if stepId == "b" then ⟨false, "boom"⟩ else ⟨true, ""⟩

def reqC6 : ApprovalRequest :=
  ⟨"req1", ["financial_manager"], [], "pending", none⟩

def wC6 : WorkflowState :=
  ⟨"wf1", "transactional", [], [reqC6], AgentStatus.waiting, none, 0⟩

def reqC7 : ApprovalRequest :=
  ⟨"req2", ["financial_manager"], [], "pending", some 60⟩

def wC7 : WorkflowState :=
  ⟨"wf2", "transactional", [], [reqC7], AgentStatus.waiting, none, 0⟩

/-- The single-approval-step definition used to connect the approval gate to
the engine (the `approval_check` step of the transactional workflow, taken
with its prerequisites already complete). -/
def approvalWorkflowDef : WorkflowDefinition :=
  ⟨["approval_check"], []⟩

theorem mem_get_ready_steps (d : WorkflowDefinition) (completed : List String) (s : String) :
    s ∈ get_ready_steps d completed ↔
      s ∈ d.stepOrder ∧ s ∉ completed ∧ ∀ p ∈ depsOf d s, p ∈ completed := by
  simp [get_ready_steps, List.mem_filter, List.all_eq_true, List.elem_iff]

theorem get_ready_steps_nodup (d : WorkflowDefinition) (completed : List String)
    (h : d.stepOrder.Nodup) : (get_ready_steps d completed).Nodup :=
  List.Nodup.filter _ h

theorem exists_rank_min (f : String → Nat) :
    ∀ (l : List String), l ≠ [] → ∃ m ∈ l, ∀ x ∈ l, f m ≤ f x := by
  intro l
  induction l with
  | nil => intro h; exact absurd rfl h
  | cons a t ih =>
      intro _
      by_cases ht : t = []
      · subst ht
        exact ⟨a, List.mem_cons_self a [], by
          intro x hx
          rcases List.mem_singleton.mp hx with rfl
          exact Nat.le_refl _⟩
      · obtain ⟨m, hm, hmin⟩ := ih ht
        by_cases hle : f a ≤ f m
        · refine ⟨a, List.mem_cons_self a t, ?_⟩
          intro x hx
          rcases List.mem_cons.mp hx with rfl | hx
          · exact Nat.le_refl _
          · exact Nat.le_trans hle (hmin x hx)
        · refine ⟨m, List.mem_cons_of_mem a hm, ?_⟩
          intro x hx
          rcases List.mem_cons.mp hx with rfl | hx
          · exact Nat.le_of_lt (Nat.lt_of_not_le hle)
          · exact hmin x hx

theorem get_ready_steps_ne_nil (d : WorkflowDefinition) (rank : String → Nat)
    (hwf : WellFormed d) (hacyc : AcyclicBy d rank) (completed : List String)
    (h : ∃ s ∈ d.stepOrder, s ∉ completed) : get_ready_steps d completed ≠ [] := by
  obtain ⟨s, hs, hsc⟩ := h
  have hsfil : s ∈ d.stepOrder.filter (fun x => !(completed.contains x)) := by
    simp [List.mem_filter, List.elem_iff, hs, hsc]
  obtain ⟨m, hm, hmin⟩ :=
    exists_rank_min rank (d.stepOrder.filter (fun x => !(completed.contains x)))
      (List.ne_nil_of_mem hsfil)
  have hm2 := List.mem_filter.mp hm
  have hmStep : m ∈ d.stepOrder := hm2.1
  have hmNot : m ∉ completed := by
    simpa [List.elem_iff] using hm2.2
  have hready : m ∈ get_ready_steps d completed := by
    rw [mem_get_ready_steps]
    refine ⟨hmStep, hmNot, ?_⟩
    intro p hp
    by_contra hpc
    have hpStep : p ∈ d.stepOrder := hwf.2 m hmStep p hp
    have hpfil : p ∈ d.stepOrder.filter (fun x => !(completed.contains x)) := by
      simp [List.mem_filter, List.elem_iff, hpStep, hpc]
    have hlt : rank p < rank m := hacyc m hmStep p hp
    exact absurd (hmin p hpfil) (Nat.not_le_of_lt hlt)
  exact List.ne_nil_of_mem hready

theorem run_rounds_invariant (d : WorkflowDefinition) (hwf : WellFormed d) :
    ∀ (n : Nat) (completed : List String), completed.Nodup →
      (∀ x ∈ completed, x ∈ d.stepOrder) →
      (run_rounds d completed n).Nodup ∧ ∀ x ∈ run_rounds d completed n, x ∈ d.stepOrder := by
  intro n
  induction n with
  | zero => intro completed hnd hsub; exact ⟨hnd, hsub⟩
  | succ n ih =>
      intro completed hnd hsub
      by_cases hready : get_ready_steps d completed = []
      · simpa [run_rounds, hready] using And.intro hnd hsub
      · have hnd2 : (mark_layer_complete d completed).Nodup := by
          refine List.Nodup.append hnd (get_ready_steps_nodup d completed hwf.1) ?_
          intro a ha hb
          exact ((mem_get_ready_steps d completed a).mp hb).2.1 ha
        have hsub2 : ∀ x ∈ mark_layer_complete d completed, x ∈ d.stepOrder := by
          intro x hx
          rcases List.mem_append.mp hx with hx | hx
          · exact hsub x hx
          · exact ((mem_get_ready_steps d completed x).mp hx).1
        have := ih (mark_layer_complete d completed) hnd2 hsub2
        simpa [run_rounds, hready] using this

theorem run_rounds_complete (d : WorkflowDefinition) (rank : String → Nat)
    (hwf : WellFormed d) (hacyc : AcyclicBy d rank) :
    ∀ (n : Nat) (completed : List String), completed.Nodup →
      (∀ x ∈ completed, x ∈ d.stepOrder) →
      d.stepOrder.length ≤ completed.length + n →
      ∀ s ∈ d.stepOrder, s ∈ run_rounds d completed n := by
  intro n
  induction n with
  | zero =>
      intro completed hnd hsub hlen s hs
      have hsubF : completed.toFinset ⊆ d.stepOrder.toFinset := by
        intro x hx
        exact List.mem_toFinset.mpr (hsub x (List.mem_toFinset.mp hx))
      have hcard : d.stepOrder.toFinset.card ≤ completed.toFinset.card := by
        have h1 : d.stepOrder.toFinset.card ≤ d.stepOrder.length :=
          List.toFinset_card_le d.stepOrder
        have h2 : completed.toFinset.card = completed.length :=
          List.toFinset_card_of_nodup hnd
        omega
      have heq : completed.toFinset = d.stepOrder.toFinset :=
        Finset.eq_of_subset_of_card_le hsubF hcard
      have : s ∈ completed.toFinset := heq ▸ List.mem_toFinset.mpr hs
      simpa [run_rounds] using List.mem_toFinset.mp this
  | succ n ih =>
      intro completed hnd hsub hlen s hs
      by_cases hready : get_ready_steps d completed = []
      · have hall : ∀ x ∈ d.stepOrder, x ∈ completed := by
          intro x hx
          by_contra hxc
          exact get_ready_steps_ne_nil d rank hwf hacyc completed ⟨x, hx, hxc⟩ hready
        simpa [run_rounds, hready] using hall s hs
      · have hnd2 : (mark_layer_complete d completed).Nodup := by
          refine List.Nodup.append hnd (get_ready_steps_nodup d completed hwf.1) ?_
          intro a ha hb
          exact ((mem_get_ready_steps d completed a).mp hb).2.1 ha
        have hsub2 : ∀ x ∈ mark_layer_complete d completed, x ∈ d.stepOrder := by
          intro x hx
          rcases List.mem_append.mp hx with hx | hx
          · exact hsub x hx
          · exact ((mem_get_ready_steps d completed x).mp hx).1
        have hpos : 0 < (get_ready_steps d completed).length :=
          List.length_pos.mpr hready
        have hlen2 : d.stepOrder.length ≤ (mark_layer_complete d completed).length + n := by
          have : (mark_layer_complete d completed).length =
              completed.length + (get_ready_steps d completed).length := by
            simp [mark_layer_complete]
          omega
        have := ih (mark_layer_complete d completed) hnd2 hsub2 hlen2 s hs
        simpa [run_rounds, hready] using this

theorem complete_step_mem (c : List String) (stepId x : String) :
    x ∈ complete_step c stepId ↔ x ∈ c ∨ x = stepId := by
  unfold complete_step
  split
  · rename_i h
    have hs : stepId ∈ c := by simpa [List.elem_iff] using h
    exact ⟨Or.inl, fun hx => hx.elim id (fun he => he ▸ hs)⟩
  · rename_i h
    simp

theorem process_step_results_ok :
    ∀ (pairs : List (String × StepResult)) (completed c2 : List String),
      process_step_results completed pairs = .ok c2 →
      (∀ p ∈ pairs, p.2.success = true) ∧
      (∀ x ∈ completed, x ∈ c2) ∧
      (∀ p ∈ pairs, p.1 ∈ c2) ∧
      (∀ x ∈ c2, x ∈ completed ∨ ∃ p ∈ pairs, x = p.1) := by
  intro pairs
  induction pairs with
  | nil =>
      intro completed c2 h
      simp [process_step_results] at h
      subst h
      exact ⟨by simp, fun x hx => hx, by simp, fun x hx => Or.inl hx⟩
  | cons pr rest ih =>
      intro completed c2 h
      obtain ⟨stepId, r⟩ := pr
      by_cases hs : r.success = true
      · have h2 : process_step_results (complete_step completed stepId) rest = .ok c2 := by
          simpa [process_step_results, hs] using h
        obtain ⟨hA, hB, hC, hD⟩ := ih (complete_step completed stepId) c2 h2
        refine ⟨?_, ?_, ?_, ?_⟩
        · intro p hp
          rcases List.mem_cons.mp hp with rfl | hp
          · exact hs
          · exact hA p hp
        · intro x hx
          exact hB x ((complete_step_mem completed stepId x).mpr (Or.inl hx))
        · intro p hp
          rcases List.mem_cons.mp hp with rfl | hp
          · exact hB stepId ((complete_step_mem completed stepId stepId).mpr (Or.inr rfl))
          · exact hC p hp
        · intro x hx
          rcases hD x hx with hx2 | ⟨p, hp, hxe⟩
          · rcases (complete_step_mem completed stepId x).mp hx2 with hx3 | rfl
            · exact Or.inl hx3
            · exact Or.inr ⟨(x, r), List.mem_cons_self _ _, rfl⟩
          · exact Or.inr ⟨p, List.mem_cons_of_mem _ hp, hxe⟩
      · have hs2 : r.success = false := by simpa using hs
        simp [process_step_results, hs2] at h

theorem process_step_results_error :
    ∀ (pairs : List (String × StepResult)) (completed : List String)
      (stepId msg : String) (cAt : List String),
      process_step_results completed pairs = .error (stepId, msg, cAt) →
      (∃ r, (stepId, r) ∈ pairs ∧ r.success = false ∧
          msg = "Step " ++ stepId ++ " failed: " ++ r.error) ∧
      (∀ x ∈ completed, x ∈ cAt) ∧
      (∀ x ∈ cAt, x ∈ completed ∨ ∃ p ∈ pairs, x = p.1 ∧ p.2.success = true) := by
  intro pairs
  induction pairs with
  | nil =>
      intro completed stepId msg cAt h
      simp [process_step_results] at h
  | cons pr rest ih =>
      intro completed stepId msg cAt h
      obtain ⟨sid, r⟩ := pr
      by_cases hs : r.success = true
      · have h2 : process_step_results (complete_step completed sid) rest
            = .error (stepId, msg, cAt) := by
          simpa [process_step_results, hs] using h
        obtain ⟨⟨rf, hrf, hrfs, hmsg⟩, hB, hCm⟩ := ih (complete_step completed sid) stepId msg cAt h2
        refine ⟨⟨rf, List.mem_cons_of_mem _ hrf, hrfs, hmsg⟩, ?_, ?_⟩
        · intro x hx
          exact hB x ((complete_step_mem completed sid x).mpr (Or.inl hx))
        · intro x hx
          rcases hCm x hx with hx2 | ⟨p, hp, hxe, hps⟩
          · rcases (complete_step_mem completed sid x).mp hx2 with hx3 | rfl
            · exact Or.inl hx3
            · exact Or.inr ⟨(x, r), List.mem_cons_self _ _, rfl, hs⟩
          · exact Or.inr ⟨p, List.mem_cons_of_mem _ hp, hxe, hps⟩
      · have hs2 : r.success = false := by simpa using hs
        simp only [process_step_results, hs2, Bool.false_eq_true, if_false,
          Except.error.injEq, Prod.mk.injEq] at h
        obtain ⟨h1, h2, h3⟩ := h
        subst h1
        subst h2
        subst h3
        exact ⟨⟨r, List.mem_cons_self _ _, hs2, rfl⟩, fun x hx => hx, fun x hx => Or.inl hx⟩

theorem execute_loop_failure_inv (d : WorkflowDefinition) (ex : String → StepResult) :
    ∀ (n : Nat) (completed : List String) (acc : List (List String))
      (s err : String) (c : List String) (layers : List (List String)),
      (∀ x ∈ completed, (ex x).success = true) →
      (∀ t ∈ acc.join, t ∈ completed) →
      (∀ t ∈ acc.join, ∀ p ∈ depsOf d t, p ∈ completed) →
      execute_loop d ex completed acc n = (.failure s err c, layers) →
      (ex s).success = false ∧
      err = "Step " ++ s ++ " failed: " ++ (ex s).error ∧
      (∀ x ∈ completed, x ∈ c) ∧
      (∀ x ∈ c, (ex x).success = true) ∧
      (∀ t ∈ layers.join, ∀ p ∈ depsOf d t, p ∈ c) ∧
      (∃ earlier lastL, layers = acc ++ earlier ++ [lastL] ∧ s ∈ lastL ∧
          ∀ t ∈ (acc ++ earlier).join, t ∈ c) := by
  intro n
  induction n with
  | zero =>
      intro completed acc s err c layers _ _ _ h
      simp [execute_loop] at h
  | succ n ih =>
      intro completed acc s err c layers hA hB hCd h
      by_cases hready : get_ready_steps d completed = []
      · simp [execute_loop, hready] at h
      · cases hp : process_step_results completed
            ((get_ready_steps d completed).map (fun stepId => (stepId, ex stepId))) with
        | error e =>
            obtain ⟨sid, msg, cAt⟩ := e
            simp only [execute_loop, hready, if_false, hp, Prod.mk.injEq,
              ExecResult.failure.injEq] at h
            obtain ⟨⟨rfl, rfl, rfl⟩, rfl⟩ := h
            obtain ⟨⟨rf, hrf, hrfs, hmsg⟩, hsubC, hmemC⟩ :=
              process_step_results_error _ completed _ _ _ hp
            obtain ⟨a, haReady, haEq⟩ := List.mem_map.mp hrf
            injection haEq with haS haR
            subst haS
            subst haR
            refine ⟨hrfs, hmsg, hsubC, ?_, ?_, [], get_ready_steps d completed,
              by simp, haReady, ?_⟩
            · intro x hx
              rcases hmemC x hx with hx2 | ⟨p, hp2, hxe, hps⟩
              · exact hA x hx2
              · obtain ⟨b, hbReady, hbEq⟩ := List.mem_map.mp hp2
                subst hbEq
                subst hxe
                simpa using hps
            · intro t ht p hpd
              rcases List.mem_join.mp ht with ⟨l, hl, htl⟩
              rcases List.mem_append.mp hl with hl2 | hl2
              · exact hsubC p (hCd t (List.mem_join.mpr ⟨l, hl2, htl⟩) p hpd)
              · have : t ∈ get_ready_steps d completed := by
                  rcases List.mem_singleton.mp hl2 with rfl
                  exact htl
                exact hsubC p (((mem_get_ready_steps d completed t).mp this).2.2 p hpd)
            · intro t ht
              simp only [List.append_nil] at ht
              exact hsubC t (hB t ht)
        | ok c2 =>
            simp only [execute_loop, hready, if_false, hp] at h
            obtain ⟨hallsucc, hmono, hpairmem, hfrom⟩ :=
              process_step_results_ok _ completed c2 hp
            have hA2 : ∀ x ∈ c2, (ex x).success = true := by
              intro x hx
              rcases hfrom x hx with hx2 | ⟨p, hp2, hxe⟩
              · exact hA x hx2
              · obtain ⟨b, hbReady, hbEq⟩ := List.mem_map.mp hp2
                have hps := hallsucc p hp2
                rw [← hbEq] at hps
                simp only at hps
                rw [hxe, ← hbEq]
                simpa using hps
            have hB2 : ∀ t ∈ (acc ++ [get_ready_steps d completed]).join, t ∈ c2 := by
              intro t ht
              rcases List.mem_join.mp ht with ⟨l, hl, htl⟩
              rcases List.mem_append.mp hl with hl2 | hl2
              · exact hmono t (hB t (List.mem_join.mpr ⟨l, hl2, htl⟩))
              · have htReady : t ∈ get_ready_steps d completed := by
                  rcases List.mem_singleton.mp hl2 with rfl
                  exact htl
                have : ((t, ex t) : String × StepResult) ∈
                    (get_ready_steps d completed).map (fun stepId => (stepId, ex stepId)) :=
                  List.mem_map.mpr ⟨t, htReady, rfl⟩
                exact hpairmem _ this
            have hC2 : ∀ t ∈ (acc ++ [get_ready_steps d completed]).join,
                ∀ p ∈ depsOf d t, p ∈ c2 := by
              intro t ht p hpd
              rcases List.mem_join.mp ht with ⟨l, hl, htl⟩
              rcases List.mem_append.mp hl with hl2 | hl2
              · exact hmono p (hCd t (List.mem_join.mpr ⟨l, hl2, htl⟩) p hpd)
              · have htReady : t ∈ get_ready_steps d completed := by
                  rcases List.mem_singleton.mp hl2 with rfl
                  exact htl
                exact hmono p (((mem_get_ready_steps d completed t).mp htReady).2.2 p hpd)
            obtain ⟨h1, h2, h3, h4, h5, earlier2, lastL, hlay, hsl, hprev⟩ :=
              ih c2 (acc ++ [get_ready_steps d completed]) s err c layers hA2 hB2 hC2 h
            refine ⟨h1, h2, fun x hx => h3 x (hmono x hx), h4, h5,
              [get_ready_steps d completed] ++ earlier2, lastL, ?_, hsl, ?_⟩
            · rw [hlay]
              simp [List.append_assoc]
            · intro t ht
              refine hprev t ?_
              rw [← List.append_assoc] at ht
              exact ht

/-- Claim C1: the spec requires that a run whose ready set is empty while
completed steps do not cover the whole definition terminates as a
StuckWorkflow failure, never as success.  Evaluation of the embedded
`execute_workflow` on a definition whose single step `a` names a missing
prerequisite: the loop silently breaks and reports success with an empty
completed list, with step `a` never completed. -/
theorem C1_stuck_graph_reports_success :
    execute_workflow stuckDef (fun _ => ⟨true, ""⟩) = (.success [], []) ∧
    "a" ∈ stuckDef.stepOrder ∧ ("a" ∈ ([] : List String) → False) := by
  refine ⟨by decide, by decide, by simp⟩

/-- Claim C2: `get_ready_steps completed` returns exactly the steps outside
`completed` whose full dependency set lies inside `completed`; and for any
well-formed acyclic definition, repeatedly taking the ready set and marking
all of its steps complete visits every step exactly once (the final completed
list has no duplicates and contains precisely the steps of the
definition). -/
theorem C2_ready_steps_correct :
    (∀ (d : WorkflowDefinition) (completed : List String) (s : String),
        s ∈ get_ready_steps d completed ↔
          s ∈ d.stepOrder ∧ s ∉ completed ∧ ∀ p ∈ depsOf d s, p ∈ completed) ∧
    (∀ d : WorkflowDefinition, WellFormed d → Acyclic d →
        (run_rounds d [] d.stepOrder.length).Nodup ∧
        ∀ s, s ∈ run_rounds d [] d.stepOrder.length ↔ s ∈ d.stepOrder) := by
  constructor
  · exact mem_get_ready_steps
  · intro d hwf hacyc
    obtain ⟨rank, hrank⟩ := hacyc
    have hinv := run_rounds_invariant d hwf d.stepOrder.length [] List.nodup_nil (by simp)
    refine ⟨hinv.1, fun s => ⟨fun h => hinv.2 s h, fun hs => ?_⟩⟩
    exact run_rounds_complete d rank hwf hrank d.stepOrder.length [] List.nodup_nil
      (by simp) (by simp) s hs

theorem C2_ready_steps_correct_witness :
    WellFormed dC2 ∧
    (run_rounds dC2 [] dC2.stepOrder.length).Nodup ∧
    ("report" ∈ run_rounds dC2 [] dC2.stepOrder.length ↔ "report" ∈ dC2.stepOrder) :=
  ⟨by unfold WellFormed; decide,
   (C2_ready_steps_correct.2 dC2 (by unfold WellFormed; decide)
      ⟨rankC2, by unfold AcyclicBy; decide⟩).1,
   (C2_ready_steps_correct.2 dC2 (by unfold WellFormed; decide)
      ⟨rankC2, by unfold AcyclicBy; decide⟩).2 "report"⟩

/-- Claim C3: when a run of `execute_workflow` returns a failure, the failed
step really failed, the returned error is the fail-fast message for that
step, the failed step was dispatched in the final layer and no later layer
was dispatched, every recorded completed step is a genuine success and none
is ever rolled back (all steps of layers before the final one stay recorded),
every dispatched step had all its dependencies recorded as completed, and in
particular no step whose dependencies include the failed step is ever
dispatched. -/
theorem C3_fail_fast (d : WorkflowDefinition) (ex : String → StepResult)
    (s err : String) (c : List String) (layers : List (List String))
    (h : execute_workflow d ex = (.failure s err c, layers)) :
    (ex s).success = false ∧
    err = "Step " ++ s ++ " failed: " ++ (ex s).error ∧
    s ∈ layers.join ∧ s ∉ c ∧
    (∀ x ∈ c, (ex x).success = true) ∧
    (∀ t ∈ layers.join, ∀ p ∈ depsOf d t, p ∈ c) ∧
    (∀ t ∈ layers.join, s ∉ depsOf d t) ∧
    (∃ earlier lastL, layers = earlier ++ [lastL] ∧ s ∈ lastL ∧
        ∀ t ∈ earlier.join, t ∈ c) := by
  obtain ⟨h1, h2, _, h4, h5, earlier, lastL, hlay, hsl, hprev⟩ :=
    execute_loop_failure_inv d ex (d.stepOrder.length + 1) [] [] s err c layers
      (by simp) (by simp) (by simp) h
  simp only [List.nil_append] at hlay hprev
  have hsnc : s ∉ c := by
    intro hsc
    rw [h4 s hsc] at h1
    exact Bool.true_eq_false.mp h1
  refine ⟨h1, h2, ?_, hsnc, h4, h5, ?_, earlier, lastL, hlay, hsl, hprev⟩
  · rw [hlay]
    simp only [List.join_append, List.mem_append]
    exact Or.inr (by simpa using hsl)
  · intro t ht hdep
    exact hsnc (h5 t ht s hdep)

theorem C3_fail_fast_witness :
    (exC3 "b").success = false ∧
    ("b" ∈ (["a", "c"] : List String) → False) := by
  have h : execute_workflow dC3 exC3 =
      (.failure "b" "Step b failed: boom" ["a", "c"], [["a", "c"], ["b"]]) := by decide
  have hc := C3_fail_fast dC3 exC3 "b" "Step b failed: boom" ["a", "c"] [["a", "c"], ["b"]] h
  exact ⟨hc.1, fun hb => hc.2.2.2.1 hb⟩

/-- Claim C4: direct dispatch returns a NotFound failure naming the unknown
agent exactly when the id is unregistered; returns a CapacityExceeded failure
exactly when the id is registered and the active counter is already at (or
above) the maximum; and otherwise runs the executor with the counter
incremented and restores the counter on every exit path (normal result or
raised exception), so the counter after the call always equals its value
before the call. -/
theorem C4_route_to_agent_dispatch (agents : List String)
    (invoke : String → Except String String) (maxConcurrentAgents activeAgentCount : Nat)
    (agentId : String) :
    ((∃ m, (route_to_agent agents invoke maxConcurrentAgents activeAgentCount agentId).1
        = .notFound m) ↔ agentId ∉ agents) ∧
    ((route_to_agent agents invoke maxConcurrentAgents activeAgentCount agentId).1
        = .capacityExceeded "Maximum concurrent agents reached" ↔
      agentId ∈ agents ∧ maxConcurrentAgents ≤ activeAgentCount) ∧
    (agentId ∈ agents → activeAgentCount < maxConcurrentAgents →
      (route_to_agent agents invoke maxConcurrentAgents activeAgentCount agentId).2.1
          = activeAgentCount + 1 ∧
      (route_to_agent agents invoke maxConcurrentAgents activeAgentCount agentId).2.2
          = activeAgentCount) ∧
    ((route_to_agent agents invoke maxConcurrentAgents activeAgentCount agentId).2.2
        = activeAgentCount) := by
  by_cases hmem : agentId ∈ agents
  · have hc : agents.contains agentId = true := by simpa [List.elem_iff] using hmem
    by_cases hcap : maxConcurrentAgents ≤ activeAgentCount
    · refine ⟨?_, ?_, ?_, ?_⟩ <;> simp [route_to_agent, hc, hcap, hmem]
    · cases hi : invoke agentId with
      | ok r =>
          refine ⟨?_, ?_, ?_, ?_⟩ <;> simp [route_to_agent, hc, hcap, hmem, hi]
      | error e =>
          refine ⟨?_, ?_, ?_, ?_⟩ <;> simp [route_to_agent, hc, hcap, hmem, hi]
  · have hc : agents.contains agentId = false := by
      have : ¬agents.contains agentId = true := fun hcontr => hmem (List.elem_iff.mp hcontr)
      simpa using this
    refine ⟨?_, ?_, ?_, ?_⟩ <;> simp [route_to_agent, hc, hmem]

theorem C4_route_to_agent_dispatch_witness :
    ("ai_cfo_agent" ∈ (["ai_cfo_agent"] : List String)) ∧ ((0 : Nat) < 3) ∧
    (route_to_agent ["ai_cfo_agent"] (fun _ => .ok "done") 3 0 "ai_cfo_agent").2.1 = 1 ∧
    (route_to_agent ["ai_cfo_agent"] (fun _ => .ok "done") 3 0 "ai_cfo_agent").2.2 = 0 := by
  have h := C4_route_to_agent_dispatch ["ai_cfo_agent"] (fun _ => .ok "done") 3 0 "ai_cfo_agent"
  exact ⟨by decide, by decide, (h.2.2.1 (by decide) (by decide)).1,
    (h.2.2.1 (by decide) (by decide)).2⟩

/-- Claim C5 counterexample: with the registry holding `data_sync_agent` and
the active counter already at the maximum, `_execute_advisory_workflow` still
invokes the worker and leaves the counter untouched, while the bounded
dispatch function at the same state refuses with CapacityExceeded — so not
every worker invocation passes through the bounded dispatch function, and a
workflow-path call can start while the counter is at the cap. -/
theorem C5_workflow_dispatch_bypasses_cap :
    execute_advisory_workflow_invocations ⟨["data_sync_agent"], 2, 2⟩ = ["data_sync_agent"] ∧
    (⟨["data_sync_agent"], 2, 2⟩ : OrchestratorState).activeAgentCount
      = (⟨["data_sync_agent"], 2, 2⟩ : OrchestratorState).maxConcurrentAgents ∧
    execute_advisory_workflow_counter_after ⟨["data_sync_agent"], 2, 2⟩ = 2 ∧
    (route_to_agent ["data_sync_agent"] (fun _ => .ok "done") 2 2 "data_sync_agent").1
      = .capacityExceeded "Maximum concurrent agents reached" := by
  decide

/-- Claim C5 amended: only direct dispatch passes through the bounded
dispatch function; `_execute_advisory_workflow` invokes every registered
agent of its fixed sequence regardless of the counter state (its invocation
list depends only on the registry) and never touches the counter, while
direct dispatch refuses new work at capacity. -/
theorem C5_advisory_dispatch_unthrottled :
    (∀ st st2 : OrchestratorState, st.agents = st2.agents →
        execute_advisory_workflow_invocations st = execute_advisory_workflow_invocations st2) ∧
    (∀ st : OrchestratorState, execute_advisory_workflow_counter_after st = st.activeAgentCount) ∧
    (∀ (agents : List String) (invoke : String → Except String String)
        (maxConcurrentAgents activeAgentCount : Nat) (agentId : String),
        agentId ∈ agents → maxConcurrentAgents ≤ activeAgentCount →
        (route_to_agent agents invoke maxConcurrentAgents activeAgentCount agentId).1
          = .capacityExceeded "Maximum concurrent agents reached") := by
  refine ⟨?_, fun st => rfl, ?_⟩
  · intro st st2 hag
    simp [execute_advisory_workflow_invocations, hag]
  · intro agents invoke maxConcurrentAgents activeAgentCount agentId hmem hcap
    have hc : agents.contains agentId = true := by simpa [List.elem_iff] using hmem
    simp [route_to_agent, hc, hcap, hmem]

theorem C5_advisory_dispatch_unthrottled_witness :
    execute_advisory_workflow_invocations ⟨["ocr_agent"], 0, 4⟩
      = execute_advisory_workflow_invocations ⟨["ocr_agent"], 9, 1⟩ ∧
    (route_to_agent ["x"] (fun _ => .ok "r") 1 1 "x").1
      = .capacityExceeded "Maximum concurrent agents reached" := by
  have h := C5_advisory_dispatch_unthrottled
  exact ⟨h.1 ⟨["ocr_agent"], 0, 4⟩ ⟨["ocr_agent"], 9, 1⟩ rfl,
    h.2.2 ["x"] (fun _ => .ok "r") 1 1 "x" (by decide) (by decide)⟩

/-- Claim C6 (code bug evaluation): a single rejection does set the request
status to rejected, but the status is not terminal: a later approval by the
required approver makes `is_approved` true (rejections are invisible to it)
and `approve_request` overwrites the status with approved.  Evaluated on a
request requiring `financial_manager`: reject by `alice`, then approve by
`financial_manager`. -/
theorem C6_rejected_request_can_become_approved :
    ((wC6.approve_request "req1" "alice" false none 1).2.pending_approvals.map
        ApprovalRequest.status = ["rejected"]) ∧
    (((wC6.approve_request "req1" "alice" false none 1).2.approve_request
        "req1" "financial_manager" true none 2).2.pending_approvals.map
        ApprovalRequest.status = ["approved"]) := by
  decide

/-- Claim C7 counterexample: a reachable request state holding a recorded
rejection (status already rejected) on which the approval gate nevertheless
resolves Approved, because the poll checks `is_approved` first and
`is_approved` ignores rejection entries: approve by the required
`financial_manager`, then reject by `bob`, then poll. -/
theorem C7_rejection_loses_to_full_approval :
    (((wC7.approve_request "req2" "financial_manager" true none 1).2.approve_request
        "req2" "bob" false none 2).2.pending_approvals.map
        ApprovalRequest.status = ["rejected"]) ∧
    ((((wC7.approve_request "req2" "financial_manager" true none 1).2.approve_request
        "req2" "bob" false none 2).2.pending_approvals.all
        (fun r => r.approvals.any (fun a => !a.approved))) = true) ∧
    execute_approval_step_poll
      ((wC7.approve_request "req2" "financial_manager" true none 1).2.approve_request
        "req2" "bob" false none 2).2.pending_approvals = .approved := by
  decide

/-- Claim C7 amended: the gate polls `is_approved` before the rejected
status, so it resolves Approved as soon as a poll observes `is_approved`;
it resolves Rejected when a poll observes status rejected on a request that
is not fully approved; if no poll before the deadline observes approval or
rejection it resolves to the approval-timeout failure; and a non-approved
resolution fails the owning step, which fails the workflow with that step
id. -/
theorem C7_approval_gate_resolution :
    (∀ trace : List ApprovalRequest,
        (∀ r ∈ trace, r.is_approved = false ∧ r.status ≠ "rejected") →
        execute_approval_step_poll trace = .timedOut) ∧
    (∀ trace : List ApprovalRequest, execute_approval_step_poll trace = .approved →
        ∃ r ∈ trace, r.is_approved = true) ∧
    (∀ trace : List ApprovalRequest, execute_approval_step_poll trace = .rejected →
        ∃ r ∈ trace, r.status = "rejected" ∧ r.is_approved = false) ∧
    (∀ trace : List ApprovalRequest, execute_approval_step_poll trace ≠ .approved →
        (execute_workflow approvalWorkflowDef
            (fun _ => approvalStepResult (execute_approval_step_poll trace))).1
          = .failure "approval_check"
              ("Step approval_check failed: "
                ++ (approvalStepResult (execute_approval_step_poll trace)).error) []) := by
  refine ⟨?_, ?_, ?_, ?_⟩
  · intro trace
    induction trace with
    | nil => intro _; rfl
    | cons r rest ih =>
        intro h
        have hr := h r (List.mem_cons_self r rest)
        have hne : (r.status == "rejected") = false := beq_eq_false_iff_ne.mpr hr.2
        simp only [execute_approval_step_poll, hr.1, Bool.false_eq_true, if_false, hne]
        exact ih (fun x hx => h x (List.mem_cons_of_mem r hx))
  · intro trace
    induction trace with
    | nil => intro h; simp [execute_approval_step_poll] at h
    | cons r rest ih =>
        intro h
        by_cases ha : r.is_approved = true
        · exact ⟨r, List.mem_cons_self r rest, ha⟩
        · have ha2 : r.is_approved = false := by simpa using ha
          by_cases hrj : (r.status == "rejected") = true
          · simp [execute_approval_step_poll, ha2, hrj] at h
          · have hrj2 : (r.status == "rejected") = false := by simpa using hrj
            simp only [execute_approval_step_poll, ha2, Bool.false_eq_true, if_false, hrj2] at h
            obtain ⟨r2, hr2, hr2a⟩ := ih h
            exact ⟨r2, List.mem_cons_of_mem r hr2, hr2a⟩
  · intro trace
    induction trace with
    | nil => intro h; simp [execute_approval_step_poll] at h
    | cons r rest ih =>
        intro h
        by_cases ha : r.is_approved = true
        · simp [execute_approval_step_poll, ha] at h
        · have ha2 : r.is_approved = false := by simpa using ha
          by_cases hrj : (r.status == "rejected") = true
          · exact ⟨r, List.mem_cons_self r rest, by simpa using hrj, ha2⟩
          · have hrj2 : (r.status == "rejected") = false := by simpa using hrj
            simp only [execute_approval_step_poll, ha2, Bool.false_eq_true, if_false, hrj2] at h
            obtain ⟨r2, hr2, hr2s, hr2a⟩ := ih h
            exact ⟨r2, List.mem_cons_of_mem r hr2, hr2s, hr2a⟩
  · intro trace hne
    rcases hcase : execute_approval_step_poll trace with _ | _ | _
    · exact absurd hcase hne
    · decide
    · decide

theorem C7_approval_gate_resolution_witness :
    execute_approval_step_poll [reqC7] = .timedOut ∧
    (execute_workflow approvalWorkflowDef
        (fun _ => approvalStepResult (execute_approval_step_poll [reqC7]))).1
      = .failure "approval_check"
          ("Step approval_check failed: "
            ++ (approvalStepResult (execute_approval_step_poll [reqC7])).error) [] := by
  have h := C7_approval_gate_resolution
  exact ⟨h.1 [reqC7] (by decide), h.2.2.2 [reqC7] (by decide)⟩

theorem dict_contains_insert {α : Type} (tbl : List (String × α)) (k : String) (v : α) :
    dict_contains (dict_insert tbl k v) k = true := by
  unfold dict_insert dict_contains
  by_cases h : tbl.any (fun p => p.1 == k) = true
  · simp only [h, if_true]
    rw [List.any_eq_true] at h ⊢
    obtain ⟨p, hp, hpk⟩ := h
    exact ⟨(k, v), List.mem_map.mpr ⟨p, hp, by simp [hpk]⟩, by simp⟩
  · rw [if_neg h]
    simp

/-- Claim C8 counterexample: after `_route_to_workflow` finishes a run, the
workflow reaches a terminal status (completed on success, error on failure)
but its entry is still present in the orchestrator `active_workflows`
table — no path of the method removes it. -/
theorem C8_orchestrator_table_retains_terminal :
    route_to_workflow [] "wf1" true = [("wf1", AgentStatus.completed)] ∧
    dict_contains (route_to_workflow [] "wf1" true) "wf1" = true ∧
    route_to_workflow [] "wf2" false = [("wf2", AgentStatus.error)] ∧
    dict_contains (route_to_workflow [] "wf2" false) "wf2" = true := by
  decide

/-- Claim C8 amended: the orchestrator `active_workflows` table always still
contains the workflow after `_route_to_workflow` returns (the entry is
removed only when the orchestrator stops); it is the engine
`active_executions` table whose entry, added when `execute_workflow` starts
on a known workflow type, is removed by the `finally` block on every exit
path, without disturbing other entries. -/
theorem C8_terminal_state_table_cleanup :
    (∀ (tbl : List (String × AgentStatus)) (workflowId : String) (runSuccess : Bool),
        dict_contains (route_to_workflow tbl workflowId runSuccess) workflowId = true) ∧
    (∀ (defs : List (String × WorkflowDefinition)) (tbl : List String)
        (workflowType workflowId : String) (ex : String → StepResult) (d : WorkflowDefinition),
        defs.lookup workflowType = some d →
        workflowId ∉ (engine_execute_workflow_tracked defs tbl workflowType workflowId ex).2) ∧
    (∀ (defs : List (String × WorkflowDefinition)) (tbl : List String)
        (workflowType workflowId : String) (ex : String → StepResult) (x : String),
        x ∈ tbl → x ≠ workflowId →
        x ∈ (engine_execute_workflow_tracked defs tbl workflowType workflowId ex).2) := by
  refine ⟨?_, ?_, ?_⟩
  · intro tbl workflowId runSuccess
    exact dict_contains_insert _ workflowId _
  · intro defs tbl workflowType workflowId ex d hl
    simp [engine_execute_workflow_tracked, hl, List.mem_filter]
  · intro defs tbl workflowType workflowId ex x hx hne
    have hb : (x == workflowId) = false := beq_eq_false_iff_ne.mpr hne
    cases hl : defs.lookup workflowType with
    | none => simpa [engine_execute_workflow_tracked, hl] using hx
    | some d =>
        simp only [engine_execute_workflow_tracked, hl]
        exact List.mem_filter.mpr
          ⟨List.mem_cons_of_mem _ (List.mem_filter.mpr ⟨hx, by simp [hb]⟩), by simp [hb]⟩

theorem C8_terminal_state_table_cleanup_witness :
    dict_contains (route_to_workflow [("old", AgentStatus.idle)] "wf9" false) "wf9" = true ∧
    ("wf9" ∈ (engine_execute_workflow_tracked [("advisory", dC2)] ["other"] "advisory" "wf9"
        (fun _ => ⟨true, ""⟩)).2 → False) ∧
    ("other" ∈ (engine_execute_workflow_tracked [("advisory", dC2)] ["other"] "advisory" "wf9"
        (fun _ => ⟨true, ""⟩)).2) := by
  have h := C8_terminal_state_table_cleanup
  exact ⟨h.1 [("old", AgentStatus.idle)] "wf9" false,
    fun hmem => h.2.1 [("advisory", dC2)] ["other"] "advisory" "wf9" (fun _ => ⟨true, ""⟩)
      dC2 (by decide) hmem,
    h.2.2 [("advisory", dC2)] ["other"] "advisory" "wf9" (fun _ => ⟨true, ""⟩) "other"
      (by decide) (by decide)⟩

/-- Claim C9 (code bug evaluation): `share_context_data` acquires the two
session locks in argument order (source first, then target), not in a
canonical global order: swapping source and target for the same session pair
yields exactly opposite acquisition orders, which is the deadlock pattern of
two concurrent cross-shares. -/
theorem C9_share_lock_order_not_canonical :
    share_context_lock_order "session_a" "session_b" = ["session_a", "session_b"] ∧
    share_context_lock_order "session_b" "session_a" = ["session_b", "session_a"] ∧
    share_context_lock_order "session_b" "session_a"
      = (share_context_lock_order "session_a" "session_b").reverse ∧
    share_context_lock_order "session_a" "session_b"
      ≠ share_context_lock_order "session_b" "session_a" := by
  decide

theorem approve_request_list_no_match (request_id approver_id : String) (approved : Bool)
    (comments : Option String) (now : Nat) :
    ∀ l : List ApprovalRequest, (∀ r ∈ l, r.id ≠ request_id) →
      approve_request_list request_id approver_id approved comments now l = (false, l) := by
  intro l
  induction l with
  | nil => intro _; rfl
  | cons r rest ih =>
      intro h
      have hne : (r.id == request_id) = false :=
        beq_eq_false_iff_ne.mpr (h r (List.mem_cons_self r rest))
      simp [approve_request_list, hne, ih (fun x hx => h x (List.mem_cons_of_mem r hx))]

/-- Claim C10: calling `approve_request` with a request id matching no
pending approval returns false and leaves the whole workflow state
unchanged — no approval entry is appended, no status changes, and
`updated_at` is not touched. -/
theorem C10_approve_request_unknown_id (w : WorkflowState) (request_id approver_id : String)
    (approved : Bool) (comments : Option String) (now : Nat)
    (h : ∀ r ∈ w.pending_approvals, r.id ≠ request_id) :
    w.approve_request request_id approver_id approved comments now = (false, w) := by
  unfold WorkflowState.approve_request
  rw [approve_request_list_no_match request_id approver_id approved comments now
    w.pending_approvals h]
  simp

theorem C10_approve_request_unknown_id_witness :
    (∀ r ∈ wC6.pending_approvals, r.id ≠ "missing") ∧
    wC6.approve_request "missing" "alice" true none 9 = (false, wC6) :=
  ⟨by decide, C10_approve_request_unknown_id wC6 "missing" "alice" true none 9 (by decide)⟩

end AiFinancial
